import Mathlib

/-!
Verification development for the AI video-generation pipeline repository.

Shallow embedding of the behaviour-relevant parts of the source:

* `app/agents/base.py` — `BaseAgent.run_with_retry`, the retry/backoff loop.
* `src/models/manager.py` — `ModelManager.get_fallback_chain` and
  `ModelManager.get_primary_model`, the provider fallback-chain selection.
* `app/models/tts.py` / `app/models/image_gen.py` — the provider iteration
  loops of `generate_speech` / `generate_image`.
* `src/services/ai/text_llm.py` — `_validate_and_enhance_script`.
* `app/agents/audio.py` — `get_audio_duration` and the segment filenames
  built by `execute_with_streaming`.
* `app/agents/video.py` — the scene/image/audio join performed by
  `VideoAgent.execute_with_streaming`.
* `app/api/routes/full_video_generation.py` — `progress_generator` and the
  `progress_queues` registry.
-/

set_option autoImplicit false

namespace VideoPipeline

/-! ### Retry loop of `BaseAgent.run_with_retry` (app/agents/base.py, lines 50-93)

The loop body performs, per iteration with current counter `retry_count`:
validate the input (raising `ValueError` inside the `try` block when invalid),
then call `execute`.  Any exception is caught, the counter is incremented,
and when `retry_count <= max_retries` still holds the loop sleeps
`2 ** retry_count` seconds and iterates again; otherwise the exception is
re-raised.  When the loop guard `retry_count <= max_retries` is false on
entry the function body ends and Python returns `None`.

The environment of one attempt (what `validate_input` and `execute` do at a
given value of the counter) is abstracted as `AttemptOutcome`; the embedding
records the observable effects: result, final counter, number of `execute`
calls, number of `validate_input` calls, and the list of backoff sleeps in
seconds, in order. -/

/-- Behaviour of one loop iteration: the input fails validation (so
`ValueError` is raised before `execute` is reached), or `execute` raises,
or `execute` returns a result. -/
inductive AttemptOutcome where
  | invalidInput
  | execRaises
  | execSucceeds
deriving DecidableEq, Repr

/-- How a `run_with_retry` call ends: a successful result (carrying the
`retry_count` metadata recorded at that moment), a re-raised exception, or
the implicit `None` returned when the loop guard is false on entry. -/
inductive RunOutcome where
  | success (retryCountAtSuccess : Nat)
  | raised
  | noneReturned
deriving DecidableEq, Repr

/-- Observable effects of one `run_with_retry` call. -/
structure RunStats where
  result : RunOutcome
  finalRetry : Nat
  execCalls : Nat
  validateCalls : Nat
  sleeps : List Nat
deriving DecidableEq, Repr

/-- The `while retry_count <= max_retries` loop, driven structurally by the
number `fuel = max_retries + 1 - retry_count` of loop iterations the guard
still permits (the guard `r <= N` holds iff `N + 1 - r > 0`, and each
failing iteration increments `r`, decrementing that quantity by one). -/
def run_loop (outcome : Nat → AttemptOutcome) : Nat → Nat → RunStats
  | 0, r => ⟨RunOutcome.noneReturned, r, 0, 0, []⟩
  | fuel + 1, r =>
    match outcome r with
    | AttemptOutcome.execSucceeds => ⟨RunOutcome.success r, r, 1, 1, []⟩
    | AttemptOutcome.execRaises =>
      match fuel with
      | 0 => ⟨RunOutcome.raised, r + 1, 1, 1, []⟩
      | _ + 1 =>
        let rest := run_loop outcome fuel (r + 1)
        ⟨rest.result, rest.finalRetry, rest.execCalls + 1, rest.validateCalls + 1,
          2 ^ (r + 1) :: rest.sleeps⟩
    | AttemptOutcome.invalidInput =>
      match fuel with
      | 0 => ⟨RunOutcome.raised, r + 1, 0, 1, []⟩
      | _ + 1 =>
        let rest := run_loop outcome fuel (r + 1)
        ⟨rest.result, rest.finalRetry, rest.execCalls, rest.validateCalls + 1,
          2 ^ (r + 1) :: rest.sleeps⟩

/-- `BaseAgent.run_with_retry` as a function of the configured
`max_retries`, the per-attempt behaviour, and the value of the instance
attribute `self.retry_count` on entry (0 for a freshly constructed agent;
`run_with_retry` itself never resets it). -/
def run_with_retry (maxRetries : Nat) (outcome : Nat → AttemptOutcome)
    (retryCount : Nat) : RunStats :=
  run_loop outcome (maxRetries + 1 - retryCount) retryCount

/-! ### Provider configuration manager (src/models/manager.py)

`ModelManager._configs` is an insertion-ordered Python dict from model name
to a JSON config dict; it is modelled as an association list in discovery
order.  Only the config keys the selection logic reads are modelled. -/

/-- The config-dict fields read by the selection logic: `type`, `provider`,
`model_id` (a required field per `validate_config`), optional `priority`
(read with sentinel default 999) and optional `is_primary` (read with
default `False`). -/
structure ConfigData where
  type : String
  provider : String
  model_id : String
  priority : Option Int
  is_primary : Option Bool
deriving DecidableEq, Repr

/-- `ModelManager.list_models_by_type`: names of configs whose `type` field
equals the requested model type, in discovery (insertion) order. -/
def list_models_by_type (configs : List (String × ConfigData)) (t : String) :
    List String :=
  (configs.filter (fun nc => nc.2.type == t)).map (fun nc => nc.1)

/-- Dict lookup `self._configs[name]` (first binding of the name). -/
def config_of (configs : List (String × ConfigData)) (name : String) :
    Option ConfigData :=
  (configs.find? (fun nc => nc.1 == name)).map (fun nc => nc.2)

/-- `self._configs[name].get("priority", 999)`: the sort key used by
`get_fallback_chain`.  The `none` branch is unreachable for names produced
by `list_models_by_type`. -/
def priority_of (configs : List (String × ConfigData)) (name : String) : Int :=
  match config_of configs name with
  | some c => c.priority.getD 999
  | none => 999

/-- `config.get("is_primary", False)`. -/
def is_primary_of (configs : List (String × ConfigData)) (name : String) :
    Bool :=
  match config_of configs name with
  | some c => c.is_primary.getD false
  | none => false

/-- `ModelManager.get_primary_model`: filters the candidates of the type
(optionally by provider), scans them in discovery order for the first one
marked `is_primary`, and otherwise returns `candidates[0]` — the first
candidate in discovery order, not the head of the priority-sorted chain. -/
def get_primary_model (configs : List (String × ConfigData)) (t : String)
    (provider : Option String) : Option String :=
  let candidates := list_models_by_type configs t
  let candidates := match provider with
    | some p => candidates.filter (fun n =>
        match config_of configs n with
        | some c => c.provider == p
        | none => false)
    | none => candidates
  match candidates.find? (fun n => is_primary_of configs n) with
  | some n => some n
  | none => candidates.head?

/-- `ModelManager.get_fallback_chain`: Python `sorted` is a stable sort by
the key `config.get("priority", 999)`; it is modelled by the stable
insertion sort on the same key (any two stable sorts by the same key agree
extensionally). -/
def get_fallback_chain (configs : List (String × ConfigData)) (t : String) :
    List String :=
  List.insertionSort
    (fun a b => priority_of configs a ≤ priority_of configs b)
    (list_models_by_type configs t)

/-- The configs of the example in the claim about the fallback chain:
A with priority 2, B with priority 1, C with priority 1 and marked
primary, discovered in that order, all for one capability. -/
def c3_example_configs : List (String × ConfigData) :=
  [("A", ⟨"text_llm", "openai", "m1", some 2, none⟩),
   ("B", ⟨"text_llm", "openai", "m2", some 1, none⟩),
   ("C", ⟨"text_llm", "anthropic", "m3", some 1, some true⟩)]

/-- Two configs for one capability, none marked primary, discovered with
the higher-priority-number one first. -/
def c3_no_primary_configs : List (String × ConfigData) :=
  [("A", ⟨"text_llm", "openai", "m1", some 2, none⟩),
   ("B", ⟨"text_llm", "openai", "m2", some 1, none⟩)]

/-! ### Provider fallback loops of `TTSManager.generate_speech`
(app/models/tts.py, lines 100-148) and `ImageGenManager.generate_image`
(app/models/image_gen.py, lines 92-158)

Both methods build `configs = get_fallback_chain()`, prepend the optional
explicit config, and iterate: the whole loop body is inside
`try/except Exception`, so a config whose client is missing is skipped
(`continue`), a config whose call raises is skipped (warning + `continue`),
a config whose provider branch produces no usable output falls through to
the next config, and the first config that saves output returns `True`.
After the loop the method returns `False`.  The outcome of each config
attempt is abstracted as `GenAttempt`; the return type `Except String Bool`
makes the call boundary explicit: an `Except.error` would model an
exception propagating past the method, and the embedding shows none ever
is. -/

/-- Outcome of trying one provider config. -/
inductive GenAttempt where
  | success
  | raisesExc (msg : String)
  | noClient
  | noOutput
deriving DecidableEq, Repr

/-- `configs.insert(0, config)` when an explicit config is passed. -/
def prepend_explicit_config (explicit : Option GenAttempt)
    (chain : List GenAttempt) : List GenAttempt :=
  match explicit with
  | some c => c :: chain
  | none => chain

/-- The `for tts_config in configs` loop of `generate_speech`. -/
def tts_try_configs : List GenAttempt → Except String Bool
  | [] => Except.ok false
  | GenAttempt.success :: _ => Except.ok true
  | _ :: rest => tts_try_configs rest

/-- `TTSManager.generate_speech`: try the explicit config, then the
fallback chain, in order. -/
def generate_speech (explicit : Option GenAttempt)
    (chain : List GenAttempt) : Except String Bool :=
  tts_try_configs (prepend_explicit_config explicit chain)

/-- The `for img_config in configs` loop of `generate_image`. -/
def image_try_configs : List GenAttempt → Except String Bool
  | [] => Except.ok false
  | GenAttempt.success :: _ => Except.ok true
  | _ :: rest => image_try_configs rest

/-- `ImageGenManager.generate_image`: same iteration scheme as
`generate_speech`. -/
def generate_image (explicit : Option GenAttempt)
    (chain : List GenAttempt) : Except String Bool :=
  image_try_configs (prepend_explicit_config explicit chain)

/-- The hypothesis of the exhaustion claim: the attempt raised, or no
client could be initialised. -/
def attempt_raises_or_no_client : GenAttempt → Bool
  | GenAttempt.raisesExc _ => true
  | GenAttempt.noClient => true
  | _ => false

/-! ### Script post-validation (src/services/ai/text_llm.py, lines 215-268)

`_validate_and_enhance_script` receives the parsed JSON script.  Absent
keys are modelled as `none` fields; `setdefault`/`get` defaults follow the
source.  Two source cases are outside the typed model: a `storyboard`
value that is not a list is replaced by `[]` (modelled by an absent field),
and non-dict storyboard entries are left untouched by the backfill loop
(and would raise in the duration sum); scenes are typed as dicts here.
Numbers are modelled as rationals. -/

/-- One storyboard entry of the parsed script JSON. -/
structure ScriptScene where
  scene_id : Option Int
  description : Option String
  duration_seconds : Option ℚ
  narration_segment : Option String
  transition : Option String
deriving DecidableEq, Repr

/-- The parsed script JSON (the fields the validation touches). -/
structure ScriptData where
  narration : Option String
  storyboard : Option (List ScriptScene)
  total_duration : Option ℚ
  style_notes : Option String
deriving DecidableEq, Repr

/-- The `valid_transitions` list of the source. -/
def valid_transitions : List String :=
  ["none", "fade", "fade_to_black", "zoom_in", "zoom_out",
   "pan_left", "pan_right", "slide_up", "slide_down"]

/-- The per-scene backfill: `setdefault` of `scene_id` (1-based position),
`description`, `duration_seconds` (5), `narration_segment`, `transition`
("none"), then replacement of an unrecognised transition by "none". -/
def enhance_scene (i : Nat) (s : ScriptScene) : ScriptScene :=
  { scene_id := some (s.scene_id.getD (Int.ofNat i + 1))
    description := some (s.description.getD "")
    duration_seconds := some (s.duration_seconds.getD 5)
    narration_segment := some (s.narration_segment.getD "")
    transition := some (
      let t := s.transition.getD "none"
      if valid_transitions.contains t then t else "none") }

/-- `calculated_duration`: the sum of `scene.get("duration_seconds", 0)`
over the (already backfilled) storyboard. -/
def computed_total_duration (scenes : List ScriptScene) : ℚ :=
  (scenes.map (fun s => s.duration_seconds.getD 0)).sum

/-- The storyboard after the per-scene backfill loop (`for i, scene in
enumerate(storyboard)`). -/
def enhanced_storyboard (d : ScriptData) : List ScriptScene :=
  (d.storyboard.getD []).enum.map (fun p => enhance_scene p.1 p.2)

/-- `TextLLMService._validate_and_enhance_script`. -/
def validate_and_enhance_script (d : ScriptData) : ScriptData :=
  let narration := d.narration.getD ""
  let sb := enhanced_storyboard d
  let declared := d.total_duration.getD 0
  let calculated := computed_total_duration sb
  let total :=
    if declared ≤ 0 then calculated
    else if 5 < |declared - calculated| then calculated
    else declared
  { narration := some narration
    storyboard := some sb
    total_duration := some total
    style_notes := some (d.style_notes.getD
      "Duy trì phong cách nhất quán trong toàn bộ video") }

/-- A storyboard scene carrying only a 5-second duration, as in the
duration-reconciliation example. -/
def c6_plain_scene : ScriptScene := ⟨none, none, some 5, none, none⟩

/-- Script declaring `total_duration = 5` over four 5-second scenes. -/
def c6_script_declared_5 : ScriptData :=
  ⟨some "n", some [c6_plain_scene, c6_plain_scene, c6_plain_scene,
    c6_plain_scene], some 5, none⟩

/-- Script declaring `total_duration = 21` over four 5-second scenes. -/
def c6_script_declared_21 : ScriptData :=
  ⟨some "n", some [c6_plain_scene, c6_plain_scene, c6_plain_scene,
    c6_plain_scene], some 21, none⟩

/-! ### Audio duration estimation (app/agents/audio.py)

`execute_with_streaming` generates one audio file per scene with a
non-empty `narration_segment`, writing it to
`narration_scene_<scene_id>_<uuid8>.<fmt>` (the segment id is
`f"scene_{scene_id}"`), and then sets the duration of the result via
`get_audio_duration(audio_path)`.  That function recovers a "text" from
the file name — `Path(audio_path).stem.replace("narration_", "").split("_")[0]`
— and returns `len(text.split()) / 2.5` when that string is non-empty,
else `5.0`. -/

/-- Python `str.split(sep)` for a one-character separator, at the
character level (the separators used here — "/", ".", "_" — are all one
character). -/
def py_split_char (sep : Char) : List Char → List (List Char)
  | [] => [[]]
  | a :: rest =>
    match py_split_char sep rest with
    | [] => [[]]
    | w :: ws => if a = sep then [] :: w :: ws else (a :: w) :: ws

/-- Splitting on a character class, used for Python `str.split()` with no
argument. -/
def py_split_pred (p : Char → Bool) : List Char → List (List Char)
  | [] => [[]]
  | a :: rest =>
    match py_split_pred p rest with
    | [] => [[]]
    | w :: ws => if p a then [] :: w :: ws else (a :: w) :: ws

/-- Python `str.split()` with no argument: split on whitespace and drop
empty pieces. -/
def py_split_whitespace (s : String) : List (List Char) :=
  (py_split_pred Char.isWhitespace s.data).filter (fun w => !w.isEmpty)

/-- Python `str.replace(pattern, repl)`: replace the non-overlapping
occurrences of `pattern`, scanning left to right.  The fuel argument is
instantiated with the string length by `py_replace`; each step consumes at
least one character (the patterns used here are non-empty), so the fuel
never runs out. -/
def py_replace_go (pattern repl : List Char) : Nat → List Char → List Char
  | _, [] => []
  | 0, s => s
  | fuel + 1, a :: rest =>
    if pattern.isPrefixOf (a :: rest) then
      repl ++ py_replace_go pattern repl fuel ((a :: rest).drop pattern.length)
    else a :: py_replace_go pattern repl fuel rest

/-- Python `str.replace`. -/
def py_replace (s pattern repl : String) : String :=
  ⟨py_replace_go pattern.data repl.data s.data.length s.data⟩

/-- `pathlib.Path(p).stem`: the final path component without its last
extension (for the dot-free and non-hidden names produced here). -/
def path_stem (path : String) : String :=
  let base := (py_split_char '/' path.data).getLastD path.data
  let parts := py_split_char '.' base
  if parts.length ≤ 1 then ⟨base⟩
  else ⟨List.intercalate ['.'] parts.dropLast⟩

/-- `AudioAgent.get_audio_duration` (app/agents/audio.py, lines 137-146),
in seconds:
`text = Path(audio_path).stem.replace("narration_", "").split("_")[0]`,
then `len(text.split()) / 2.5 if text else 5.0`. -/
def get_audio_duration (audio_path : String) : ℚ :=
  let text := (py_split_char '_'
    (py_replace (path_stem audio_path) "narration_" "").data).headD []
  if text.isEmpty then 5
  else ((py_split_whitespace ⟨text⟩).length : ℚ) / (5 / 2)

/-- The segment audio file name built in
`AudioAgent.generate_audio_for_segment`:
`f"narration_{segment_id}_{uuid}.{fmt}"` with
`segment_id = f"scene_{scene_id}"`. -/
def segment_audio_filename (scene_id : Int) (uuid_hex : String)
    (audio_format : String) : String :=
  "narration_" ++ ("scene_" ++ toString scene_id) ++ "_" ++ uuid_hex
    ++ "." ++ audio_format

/-- Modelled from the spec: the duration estimate the spec describes —
the word count of the narration text of the segment divided by 2.5
(150 words per minute).  Used only for comparison with the behaviour of
`get_audio_duration`. -/
def spec_narration_duration_estimate (text : String) : ℚ :=
  ((py_split_whitespace text).length : ℚ) / (5 / 2)

/-! ### Scene/image/audio join of `VideoAgent.execute_with_streaming`
(app/agents/video.py, lines 236-314)

For each storyboard scene (with its enumerate index), the loop computes
`scene_id = scene.get("scene_id", i + 1)`, takes the first image result
and the first audio result whose `scene_id` equals it, skips the scene
(`continue`) when no image matches, and otherwise creates the scene clip
from the image, the optional audio, the scene and the index.  The embedding
returns the list of per-scene composition inputs in storyboard order. -/

/-- A storyboard scene as consumed by the video agent. -/
structure SBScene where
  scene_id : Option Int
  duration_seconds : Option ℚ
  transition : Option String
deriving DecidableEq, Repr

/-- One entry of the `storyboard_images` result list. -/
structure ImageResult where
  scene_id : Option Int
  image_path : String
deriving DecidableEq, Repr

/-- One entry of the `audio_files` result list. -/
structure AudioResult where
  scene_id : Option Int
  audio_path : String
deriving DecidableEq, Repr

/-- The inputs handed to `create_scene_video` for one assembled scene:
`(scene_image, scene_audio, scene, i)`. -/
structure AssembledScene where
  index : Nat
  scene : SBScene
  image : ImageResult
  audio : Option AudioResult
deriving DecidableEq, Repr

/-- `scene.get("scene_id", i + 1)`. -/
def scene_effective_id (scene : SBScene) (i : Nat) : Int :=
  scene.scene_id.getD (Int.ofNat i + 1)

/-- The first image result whose `scene_id` equals the given id
(`None` compares unequal to every integer). -/
def find_scene_image (images : List ImageResult) (sid : Int) :
    Option ImageResult :=
  images.find? (fun im => im.scene_id == some sid)

/-- The first audio result whose `scene_id` equals the given id. -/
def find_scene_audio (audios : List AudioResult) (sid : Int) :
    Option AudioResult :=
  audios.find? (fun a => a.scene_id == some sid)

/-- The scene loop of `execute_with_streaming`, starting at enumerate
index `i`. -/
def assemble_plan_from (images : List ImageResult) (audios : List AudioResult) :
    Nat → List SBScene → List AssembledScene
  | _, [] => []
  | i, scene :: rest =>
    let sid := scene_effective_id scene i
    match find_scene_image images sid with
    | none => assemble_plan_from images audios (i + 1) rest
    | some img =>
      ⟨i, scene, img, find_scene_audio audios sid⟩ ::
        assemble_plan_from images audios (i + 1) rest

/-- The scene/image/audio join of `VideoAgent.execute_with_streaming`. -/
def assemble_plan (storyboard : List SBScene) (images : List ImageResult)
    (audios : List AudioResult) : List AssembledScene :=
  assemble_plan_from images audios 0 storyboard

/-- Distinct `scene_id` fields, pairwise, for image results. -/
def images_have_distinct_ids (images : List ImageResult) : Prop :=
  images.Pairwise (fun a b => a.scene_id ≠ b.scene_id)

/-- Distinct `scene_id` fields, pairwise, for audio results. -/
def audios_have_distinct_ids (audios : List AudioResult) : Prop :=
  audios.Pairwise (fun a b => a.scene_id ≠ b.scene_id)

/-! ### Progress channel (app/api/routes/full_video_generation.py)

`progress_queues` is a process-wide dict from channel id to an
`asyncio.Queue`; `progress_generator(channel_id)` is the single consumer.
It looks the queue up once; if absent it yields one error line and stops.
Otherwise it yields a greeting line and then repeats: await the next
message, yield an `event:` line when the message is a dict carrying an
`event` key different from "message", yield the `data:` line (a non-dict
message is yielded raw), and break after a message whose event is
`complete` or `error`.  The `finally` block removes the queue from the
registry, both on normal termination and on consumer cancellation.

The embedding consumes a prefix of the queue content (given as the ordered
list of messages the producers put): `consume_events` returns the yielded
strings together with `true` when the generator terminated by itself
(terminal event seen) and `false` when it would keep blocking on
`queue.get()`. -/

/-- One message in a progress queue: the dicts put by the route handler
(`event` key optional to mirror `message.get("event")`), or any other
object, yielded raw. -/
inductive QueueMsg where
  | dict (event : Option String) (data : String)
  | raw (s : String)
deriving DecidableEq, Repr

/-- The greeting yielded before the message loop. -/
def sse_greeting : String :=
  "data: Kết nối streaming thành công. Bắt đầu xử lý video...\n\n"

/-- The yields for one message: the `event:` line (when the message is a
dict whose `event` value differs from "message") and the `data:` line, or
the raw message. -/
def render_msg : QueueMsg → List String
  | QueueMsg.raw s => [s]
  | QueueMsg.dict ev data =>
    (match ev with
     | some e => if e != "message" then ["event: " ++ e ++ "\n"] else []
     | none => []) ++ ["data: " ++ data ++ "\n\n"]

/-- `message.get("event") in ["complete", "error"]` for a dict message. -/
def is_terminal_msg : QueueMsg → Bool
  | QueueMsg.dict (some e) _ => e == "complete" || e == "error"
  | _ => false

/-- The message loop: yields each message in queue order and stops right
after a terminal one; an exhausted list means the generator is still
blocked awaiting the next message (`false`). -/
def consume_events : List QueueMsg → List String × Bool
  | [] => ([], false)
  | m :: rest =>
    if is_terminal_msg m then (render_msg m, true)
    else
      let p := consume_events rest
      (render_msg m ++ p.1, p.2)

/-- `progress_generator`: the absent-queue early error, or the greeting
followed by the message loop. -/
def progress_generator (queue : Option (List QueueMsg)) :
    List String × Bool :=
  match queue with
  | none => (["event: error\ndata: No progress queue found\n\n"], true)
  | some q =>
    let p := consume_events q
    (sse_greeting :: p.1, p.2)

/-- The `progress_queues` registry, a dict from channel id to queue. -/
def ChannelRegistry : Type := String → Option (List QueueMsg)

/-- `progress_queues.pop(channel_id, None)`, run in the `finally` block on
generator exit — normal termination or cancellation alike. -/
def pop_channel (reg : ChannelRegistry) (ch : String) : ChannelRegistry :=
  fun c => if c == ch then none else reg c

/-! ## Theorems -/

/-! ### Retry loop -/

/-- When every attempt has `execute` raise, the loop performs one
validation and one execution per remaining permitted iteration, sleeps
`2 ^ (r + 1), ..., 2 ^ (r + fuel - 1)` seconds, and ends with the
exception re-raised and the counter at `r + fuel`. -/
theorem run_loop_const_raises : ∀ f r, 1 ≤ f →
    run_loop (fun _ => AttemptOutcome.execRaises) f r =
      ⟨RunOutcome.raised, r + f, f, f,
        (List.range' (r + 1) (f - 1)).map (fun i => 2 ^ i)⟩ := by
  intro f
  induction f with
  | zero => intro r h; exact absurd h (by omega)
  | succ k ih =>
    intro r _
    cases k with
    | zero => simp [run_loop]
    | succ k' =>
      have h := ih (r + 1) (by omega)
      have unfold1 : run_loop (fun _ => AttemptOutcome.execRaises) (k' + 1 + 1) r =
          ⟨(run_loop (fun _ => AttemptOutcome.execRaises) (k' + 1) (r + 1)).result,
           (run_loop (fun _ => AttemptOutcome.execRaises) (k' + 1) (r + 1)).finalRetry,
           (run_loop (fun _ => AttemptOutcome.execRaises) (k' + 1) (r + 1)).execCalls + 1,
           (run_loop (fun _ => AttemptOutcome.execRaises) (k' + 1) (r + 1)).validateCalls + 1,
           2 ^ (r + 1) ::
             (run_loop (fun _ => AttemptOutcome.execRaises) (k' + 1) (r + 1)).sleeps⟩ := rfl
      rw [unfold1, h]
      simp only [Nat.add_sub_cancel, List.range'_succ, List.map_cons,
        RunStats.mk.injEq, true_and, and_true]
      omega

/-- When every attempt fails validation, `execute` is never reached but the
loop otherwise behaves as for any failure: one validation per permitted
iteration, the same backoff sleeps, and the `ValueError` re-raised at the
end. -/
theorem run_loop_const_invalid : ∀ f r, 1 ≤ f →
    run_loop (fun _ => AttemptOutcome.invalidInput) f r =
      ⟨RunOutcome.raised, r + f, 0, f,
        (List.range' (r + 1) (f - 1)).map (fun i => 2 ^ i)⟩ := by
  intro f
  induction f with
  | zero => intro r h; exact absurd h (by omega)
  | succ k ih =>
    intro r _
    cases k with
    | zero => simp [run_loop]
    | succ k' =>
      have h := ih (r + 1) (by omega)
      have unfold1 : run_loop (fun _ => AttemptOutcome.invalidInput) (k' + 1 + 1) r =
          ⟨(run_loop (fun _ => AttemptOutcome.invalidInput) (k' + 1) (r + 1)).result,
           (run_loop (fun _ => AttemptOutcome.invalidInput) (k' + 1) (r + 1)).finalRetry,
           (run_loop (fun _ => AttemptOutcome.invalidInput) (k' + 1) (r + 1)).execCalls,
           (run_loop (fun _ => AttemptOutcome.invalidInput) (k' + 1) (r + 1)).validateCalls + 1,
           2 ^ (r + 1) ::
             (run_loop (fun _ => AttemptOutcome.invalidInput) (k' + 1) (r + 1)).sleeps⟩ := rfl
      rw [unfold1, h]
      simp only [Nat.add_sub_cancel, List.range'_succ, List.map_cons,
        RunStats.mk.injEq, true_and, and_true]
      omega

/-- For any attempt behaviour: the counter never decreases, each call
performs at most `fuel` executions, and at most one execution (the final,
successful one) does not increment the counter. -/
theorem run_loop_bounds (o : Nat → AttemptOutcome) :
    ∀ f r, r ≤ (run_loop o f r).finalRetry ∧
      (run_loop o f r).execCalls ≤ f ∧
      r + (run_loop o f r).execCalls ≤ (run_loop o f r).finalRetry + 1 := by
  intro f
  induction f with
  | zero => intro r; simp [run_loop]
  | succ k ih =>
    intro r
    cases ho : o r with
    | execSucceeds => simp [run_loop, ho]
    | execRaises =>
      cases k with
      | zero => simp [run_loop, ho]
      | succ k' =>
        have h := ih (r + 1)
        simp only [run_loop, ho] at h ⊢
        omega
    | invalidInput =>
      cases k with
      | zero =>
        simp [run_loop, ho]
        omega
      | succ k' =>
        have h := ih (r + 1)
        simp only [run_loop, ho] at h ⊢
        omega

/-- C1: for a freshly constructed agent configured with `max_retries = N`
whose `execute` raises on every invocation, `run_with_retry` invokes
`execute` exactly `N + 1` times (validating the input each time), sleeps
between consecutive attempts exactly `2 ^ 1, 2 ^ 2, ..., 2 ^ N` seconds —
a strictly increasing sequence — and then re-raises the last exception. -/
theorem c1_retry_bound (N : Nat) :
    run_with_retry N (fun _ => AttemptOutcome.execRaises) 0 =
      ⟨RunOutcome.raised, N + 1, N + 1, N + 1,
        (List.range' 1 N).map (fun i => 2 ^ i)⟩ ∧
    (run_with_retry N (fun _ => AttemptOutcome.execRaises) 0).sleeps.Pairwise
      (fun a b => a < b) := by
  have h : run_with_retry N (fun _ => AttemptOutcome.execRaises) 0 =
      ⟨RunOutcome.raised, N + 1, N + 1, N + 1,
        (List.range' 1 N).map (fun i => 2 ^ i)⟩ := by
    have h0 := run_loop_const_raises (N + 1) 0 (by omega)
    simpa [run_with_retry] using h0
  refine ⟨h, ?_⟩
  rw [h]
  exact List.Pairwise.map _
    (fun a b hab => Nat.pow_lt_pow_right (by omega) hab)
    (List.pairwise_lt_range' 1 N)

/-- C2 counterexample: an agent with `max_retries = 3` whose input is
always rejected by validation does not fail fast: `run_with_retry` retries
the validation four times and performs three backoff sleeps (the
`ValueError` is raised inside the `try` block and caught like any other
failure), contradicting "zero backoff sleeps and no retry of the
validation itself".  Only "zero invocations of `execute`" holds. -/
theorem c2_validation_retried_counterexample :
    (run_with_retry 3 (fun _ => AttemptOutcome.invalidInput) 0).sleeps = [2, 4, 8] ∧
    (run_with_retry 3 (fun _ => AttemptOutcome.invalidInput) 0).validateCalls = 4 ∧
    (run_with_retry 3 (fun _ => AttemptOutcome.invalidInput) 0).execCalls = 0 := by
  decide

/-- C2 amended: for a fresh agent with `max_retries = N` and an input the
validation predicate always rejects, `run_with_retry` performs zero
invocations of `execute`, but the validation failure is not
short-circuited: the `ValueError` raised for it is caught by the retry
loop, validation is attempted `N + 1` times with backoff sleeps
`2 ^ 1, ..., 2 ^ N` seconds between attempts, and the error propagates
only once the retry budget is exhausted. -/
theorem c2_validation_failure_is_retried (N : Nat) :
    run_with_retry N (fun _ => AttemptOutcome.invalidInput) 0 =
      ⟨RunOutcome.raised, N + 1, 0, N + 1,
        (List.range' 1 N).map (fun i => 2 ^ i)⟩ := by
  have h0 := run_loop_const_invalid (N + 1) 0 (by omega)
  simpa [run_with_retry] using h0

/-- C10: `retry_count` is instance state that `run_with_retry` never
resets.  For any attempt behaviour and any entry value `r` of the counter:
the counter never decreases; a call starting at counter `r` performs at
most `max_retries + 1 - r` executions (so successive calls on one instance
share the single budget of `max_retries + 1` failed attempts, each failure
consuming it permanently); and in particular a call entered after a
previous call exhausted the budget (`r > max_retries`) performs zero
validations and zero executions, sleeps never, and returns `None`. -/
theorem c10_retry_counter_is_shared_state (N : Nat)
    (o : Nat → AttemptOutcome) (r : Nat) :
    (r ≤ (run_with_retry N o r).finalRetry ∧
     (run_with_retry N o r).execCalls ≤ N + 1 - r ∧
     r + (run_with_retry N o r).execCalls ≤ (run_with_retry N o r).finalRetry + 1) ∧
    (N < r → run_with_retry N o r = ⟨RunOutcome.noneReturned, r, 0, 0, []⟩) := by
  refine ⟨run_loop_bounds o (N + 1 - r) r, fun h => ?_⟩
  show run_loop o (N + 1 - r) r = _
  have hz : N + 1 - r = 0 := by omega
  rw [hz]
  rfl

/-- Witness for C10: after a call on an agent with `max_retries = 3` has
exhausted the budget (counter at 4), the next call does nothing and
returns `None`. -/
theorem c10_retry_counter_is_shared_state_witness :
    run_with_retry 3 (fun _ => AttemptOutcome.execRaises) 4 =
      ⟨RunOutcome.noneReturned, 4, 0, 0, []⟩ :=
  (c10_retry_counter_is_shared_state 3 (fun _ => AttemptOutcome.execRaises) 4).2
    (by decide)

/-! ### Fallback chain -/

/-- Inserting `a` with the stable insertion step keeps, for every key
value, the filtered subsequence intact: `a` lands in front of the matching
elements exactly when its own key matches (later equal-key elements keep
their relative order behind it). -/
theorem orderedInsert_filter_by_key {α : Type} (key : α → Int) (p : Int)
    (a : α) : ∀ l : List α,
    (List.orderedInsert (fun x y => key x ≤ key y) a l).filter
        (fun x => key x == p) =
      if key a == p then a :: l.filter (fun x => key x == p)
      else l.filter (fun x => key x == p) := by
  intro l
  induction l with
  | nil =>
    by_cases hap : key a = p
    · simp [List.orderedInsert, List.filter, hap]
    · have hb : (key a == p) = false := beq_eq_false_iff_ne.mpr hap
      simp [List.orderedInsert, List.filter, hb, hap]
  | cons b bs ih =>
    by_cases hab : key a ≤ key b
    · simp only [List.orderedInsert, if_pos hab]
      by_cases hap : key a == p
      · simp [List.filter, hap]
      · simp [List.filter, hap]
    · simp only [List.orderedInsert, if_neg hab]
      by_cases hap : key a == p
      · have hbp : (key b == p) = false := by
          have h1 : key a = p := by simpa using hap
          have h2 : key b ≠ p := by omega
          simpa using h2
        simp [List.filter, hbp, ih, hap]
      · by_cases hbp : key b == p
        · simp [List.filter, hbp, ih, hap]
        · simp [List.filter, hbp, ih, hap]

/-- Stability of the insertion sort used to model Python `sorted`: for
every key value, sorting does not change the relative order of the
elements carrying that key. -/
theorem insertionSort_filter_by_key {α : Type} (key : α → Int) (p : Int) :
    ∀ l : List α,
    (List.insertionSort (fun x y => key x ≤ key y) l).filter
        (fun x => key x == p) =
      l.filter (fun x => key x == p) := by
  intro l
  induction l with
  | nil => rfl
  | cons a as ih =>
    simp only [List.insertionSort]
    rw [orderedInsert_filter_by_key key p a]
    by_cases hap : key a == p
    · simp [List.filter, hap, ih]
    · simp [List.filter, hap, ih]

/-- `find?` returns the head of the first match: scanning `l1 ++ n :: l2`
with no match in `l1` and a match at `n` yields `n`. -/
theorem find?_first_match {α : Type} (pr : α → Bool) :
    ∀ (l1 : List α) (n : α) (l2 : List α),
    (∀ m ∈ l1, pr m = false) → pr n = true →
    (l1 ++ n :: l2).find? pr = some n := by
  intro l1
  induction l1 with
  | nil => intro n l2 _ hn; simp [List.find?, hn]
  | cons a as ih =>
    intro n l2 h hn
    have ha : pr a = false := h a (by simp)
    simp only [List.cons_append, List.find?, ha]
    exact ih n l2 (fun m hm => h m (by simp [hm])) hn

/-- C3 amended: for every config set and capability, `get_fallback_chain`
returns a permutation of the capability candidates, sorted ascending by
the priority key (`priority` with sentinel 999 when absent), with ties
broken by discovery order (for each priority value, the filtered
subsequence equals that of the discovery-ordered candidate list); and
`get_primary_model` returns the first candidate marked `is_primary` in
discovery order, or, when none is marked primary, the first candidate in
discovery order — which is not in general the head of the priority-ordered
chain.  (The claim as stated, with the no-primary fallback being the chain
head, is refuted by `c3_primary_not_chain_head_counterexample`.) -/
theorem c3_fallback_chain_and_primary (configs : List (String × ConfigData))
    (t : String) :
    (get_fallback_chain configs t).Perm (list_models_by_type configs t) ∧
    (get_fallback_chain configs t).Pairwise
      (fun a b => priority_of configs a ≤ priority_of configs b) ∧
    (∀ p : Int, (get_fallback_chain configs t).filter
        (fun n => priority_of configs n == p) =
      (list_models_by_type configs t).filter
        (fun n => priority_of configs n == p)) ∧
    (∀ l1 n l2, list_models_by_type configs t = l1 ++ n :: l2 →
      is_primary_of configs n = true →
      (∀ m ∈ l1, is_primary_of configs m = false) →
      get_primary_model configs t none = some n) ∧
    ((∀ m ∈ list_models_by_type configs t,
        is_primary_of configs m = false) →
      get_primary_model configs t none =
        (list_models_by_type configs t).head?) := by
  refine ⟨?_, ?_, ?_, ?_, ?_⟩
  · exact List.perm_insertionSort _ _
  · letI : IsTotal String
        (fun a b => priority_of configs a ≤ priority_of configs b) :=
      ⟨fun a b => le_total _ _⟩
    letI : IsTrans String
        (fun a b => priority_of configs a ≤ priority_of configs b) :=
      ⟨fun _ _ _ hab hbc => le_trans hab hbc⟩
    exact List.sorted_insertionSort _ _
  · intro p
    exact insertionSort_filter_by_key (fun n => priority_of configs n) p _
  · intro l1 n l2 hsplit hn hl1
    show (match (list_models_by_type configs t).find?
        (fun n => is_primary_of configs n) with
      | some n => some n
      | none => (list_models_by_type configs t).head?) = some n
    rw [hsplit, find?_first_match _ l1 n l2 hl1 hn]
  · intro h
    show (match (list_models_by_type configs t).find?
        (fun n => is_primary_of configs n) with
      | some n => some n
      | none => (list_models_by_type configs t).head?) =
      (list_models_by_type configs t).head?
    rw [List.find?_eq_none.mpr (fun x hx => by simp [h x hx])]

/-- Witness for C3: on the configs of the claim example the chain is
`[B, C, A]` (both priority-1 entries before A, discovery order between
them) and the primary is `C`. -/
theorem c3_fallback_chain_and_primary_witness :
    get_primary_model c3_example_configs "text_llm" none = some "C" ∧
    get_fallback_chain c3_example_configs "text_llm" = ["B", "C", "A"] :=
  ⟨(c3_fallback_chain_and_primary c3_example_configs "text_llm").2.2.2.1
      ["A", "B"] "C" [] (by decide) (by decide) (by decide),
   by decide⟩

/-- C3 counterexample: with configs `[A (priority 2), B (priority 1)]`,
none marked primary, the priority-ordered chain starts with `B` but
`get_primary_model` returns `A` — the code falls back to `candidates[0]`
in discovery order, not to the head of the priority-ordered chain as the
claim states. -/
theorem c3_primary_not_chain_head_counterexample :
    get_primary_model c3_no_primary_configs "text_llm" none = some "A" ∧
    (get_fallback_chain c3_no_primary_configs "text_llm").head? = some "B" ∧
    get_primary_model c3_no_primary_configs "text_llm" none ≠
      (get_fallback_chain c3_no_primary_configs "text_llm").head? := by
  decide

/-! ### Provider fallback exhaustion -/

/-- Helper: an attempt that raised or had no client is not a success. -/
theorem not_success_of_raises_or_no_client {a : GenAttempt}
    (h : attempt_raises_or_no_client a = true) : a ≠ GenAttempt.success := by
  cases a <;> simp_all [attempt_raises_or_no_client]

/-- The TTS provider loop returns `ok false` (not an error) whenever no
attempt succeeds. -/
theorem tts_try_configs_exhausted : ∀ l : List GenAttempt,
    (∀ a ∈ l, a ≠ GenAttempt.success) → tts_try_configs l = Except.ok false := by
  intro l
  induction l with
  | nil => intro _; rfl
  | cons a rest ih =>
    intro h
    cases a with
    | success => exact absurd rfl (h _ (by simp))
    | raisesExc m => exact ih (fun x hx => h x (by simp [hx]))
    | noClient => exact ih (fun x hx => h x (by simp [hx]))
    | noOutput => exact ih (fun x hx => h x (by simp [hx]))

/-- The image provider loop returns `ok false` (not an error) whenever no
attempt succeeds. -/
theorem image_try_configs_exhausted : ∀ l : List GenAttempt,
    (∀ a ∈ l, a ≠ GenAttempt.success) → image_try_configs l = Except.ok false := by
  intro l
  induction l with
  | nil => intro _; rfl
  | cons a rest ih =>
    intro h
    cases a with
    | success => exact absurd rfl (h _ (by simp))
    | raisesExc m => exact ih (fun x hx => h x (by simp [hx]))
    | noClient => exact ih (fun x hx => h x (by simp [hx]))
    | noOutput => exact ih (fun x hx => h x (by simp [hx]))

/-- C4: when every config attempt (explicit config included) raises or
yields no client, `generate_speech` and `generate_image` return the
failure signal `False` to the caller; no exception crosses the call
boundary (the result is `Except.ok false`, never `Except.error`). -/
theorem c4_fallback_exhaustion_returns_false (explicit : Option GenAttempt)
    (chain : List GenAttempt)
    (h : ∀ a ∈ prepend_explicit_config explicit chain,
      attempt_raises_or_no_client a = true) :
    generate_speech explicit chain = Except.ok false ∧
    generate_image explicit chain = Except.ok false :=
  ⟨tts_try_configs_exhausted _
      (fun a ha => not_success_of_raises_or_no_client (h a ha)),
   image_try_configs_exhausted _
      (fun a ha => not_success_of_raises_or_no_client (h a ha))⟩

/-- Witness for C4: an explicit config whose call raises followed by a
chain with a missing client and another raising call yields `ok false`
from both managers. -/
theorem c4_fallback_exhaustion_returns_false_witness :
    generate_speech (some (GenAttempt.raisesExc "boom"))
        [GenAttempt.noClient, GenAttempt.raisesExc "offline"] = Except.ok false ∧
    generate_image (some (GenAttempt.raisesExc "boom"))
        [GenAttempt.noClient, GenAttempt.raisesExc "offline"] = Except.ok false :=
  c4_fallback_exhaustion_returns_false (some (GenAttempt.raisesExc "boom"))
    [GenAttempt.noClient, GenAttempt.raisesExc "offline"] (by decide)

/-! ### Script duration reconciliation -/

/-- C6: for a script declaring `total_duration = t`, the post-validation
sets the output `total_duration` to the computed sum of the (backfilled)
scene durations whenever `t` is non-positive or differs from that sum by
more than 5, and keeps the declared `t` otherwise. -/
theorem c6_duration_reconciliation (d : ScriptData) (t : ℚ)
    (ht : d.total_duration = some t) :
    ((t ≤ 0 ∨ 5 < |t - computed_total_duration (enhanced_storyboard d)|) →
      (validate_and_enhance_script d).total_duration =
        some (computed_total_duration (enhanced_storyboard d))) ∧
    ((0 < t ∧ |t - computed_total_duration (enhanced_storyboard d)| ≤ 5) →
      (validate_and_enhance_script d).total_duration = some t) := by
  constructor
  · rintro (h1 | h2)
    · simp [validate_and_enhance_script, ht, h1]
    · by_cases h0 : t ≤ 0
      · simp [validate_and_enhance_script, ht, h0]
      · simp [validate_and_enhance_script, ht, h0, h2]
  · rintro ⟨h1, h2⟩
    have h0 : ¬ t ≤ 0 := not_le.mpr h1
    have h3 : ¬ 5 < |t - computed_total_duration (enhanced_storyboard d)| :=
      not_lt.mpr h2
    simp [validate_and_enhance_script, ht, h0, h3]

/-- Witness for C6: a script declaring 5 with four 5-second scenes is
corrected to 20; a script declaring 21 with the same scenes keeps 21. -/
theorem c6_duration_reconciliation_witness :
    (validate_and_enhance_script c6_script_declared_5).total_duration =
      some 20 ∧
    (validate_and_enhance_script c6_script_declared_21).total_duration =
      some 21 := by
  have hc5 : computed_total_duration (enhanced_storyboard c6_script_declared_5)
      = 20 := by
    simp [computed_total_duration, enhanced_storyboard, enhance_scene,
      c6_script_declared_5, c6_plain_scene, List.enum, List.enumFrom]
    norm_num
  have hc21 : computed_total_duration (enhanced_storyboard c6_script_declared_21)
      = 20 := by
    simp [computed_total_duration, enhanced_storyboard, enhance_scene,
      c6_script_declared_21, c6_plain_scene, List.enum, List.enumFrom]
    norm_num
  constructor
  · have h := (c6_duration_reconciliation c6_script_declared_5 5 rfl).1
      (Or.inr (by rw [hc5]; norm_num))
    rw [hc5] at h
    exact h
  · exact (c6_duration_reconciliation c6_script_declared_21 21 rfl).2
      ⟨by norm_num, by rw [hc21]; norm_num⟩

/-! ### Audio duration heuristic -/

/-- C7: the code does not estimate the duration from the narration text.
For the standard segment file name `narration_scene_1_ab12cd34.mp3` the
stem processing recovers the single token "scene" from the file name, so
`get_audio_duration` returns `1 / 2.5 = 0.4` seconds, whatever the
narration text was; the estimate the spec describes for the six-word
narration "a cat plays in the garden" is `6 / 2.5 = 2.4` seconds.  The
code contradicts its own comment ("return an estimate based on text
length ... 150 words per minute"). -/
theorem c7_audio_duration_ignores_text :
    get_audio_duration
        ("generated_audio/" ++ segment_audio_filename 1 "ab12cd34" "mp3") =
      2 / 5 ∧
    spec_narration_duration_estimate "a cat plays in the garden" = 12 / 5 ∧
    get_audio_duration
        ("generated_audio/" ++ segment_audio_filename 1 "ab12cd34" "mp3") ≠
      spec_narration_duration_estimate "a cat plays in the garden" := by
  have htext : (py_split_char '_'
      (py_replace (path_stem ("generated_audio/" ++
        segment_audio_filename 1 "ab12cd34" "mp3")) "narration_" "").data).headD []
      = ['s', 'c', 'e', 'n', 'e'] := by decide
  have hwords :
      (py_split_whitespace ⟨['s', 'c', 'e', 'n', 'e']⟩).length = 1 := by decide
  have hspec :
      (py_split_whitespace "a cat plays in the garden").length = 6 := by decide
  have h1 : get_audio_duration
      ("generated_audio/" ++ segment_audio_filename 1 "ab12cd34" "mp3") =
      2 / 5 := by
    show (if ((py_split_char '_'
        (py_replace (path_stem ("generated_audio/" ++
          segment_audio_filename 1 "ab12cd34" "mp3")) "narration_" "").data).headD
          []).isEmpty
      then (5 : ℚ)
      else (((py_split_whitespace ⟨(py_split_char '_'
        (py_replace (path_stem ("generated_audio/" ++
          segment_audio_filename 1 "ab12cd34" "mp3")) "narration_" "").data).headD
          []⟩).length : ℚ) / (5 / 2))) = 2 / 5
    rw [htext, hwords]
    norm_num
  have h2 : spec_narration_duration_estimate "a cat plays in the garden" =
      12 / 5 := by
    show ((py_split_whitespace "a cat plays in the garden").length : ℚ) /
        (5 / 2) = 12 / 5
    rw [hspec]
    norm_num
  exact ⟨h1, h2, by rw [h1, h2]; norm_num⟩

/-! ### Scene join of the Assembling stage -/

/-- Every entry of the assembly loop started at index `i` carries an index
at least `i`. -/
theorem le_index_of_mem_assemble_plan_from (imgs : List ImageResult)
    (auds : List AudioResult) : ∀ (sb : List SBScene) (i : Nat)
    (e : AssembledScene), e ∈ assemble_plan_from imgs auds i sb → i ≤ e.index := by
  intro sb
  induction sb with
  | nil => intro i e h; simp [assemble_plan_from] at h
  | cons scene rest ih =>
    intro i e h
    cases hf : find_scene_image imgs (scene_effective_id scene i) with
    | none =>
      rw [show assemble_plan_from imgs auds i (scene :: rest) =
          assemble_plan_from imgs auds (i + 1) rest from by
        simp only [assemble_plan_from, hf]] at h
      have := ih (i + 1) e h
      omega
    | some img =>
      rw [show assemble_plan_from imgs auds i (scene :: rest) =
          ⟨i, scene, img, find_scene_audio auds (scene_effective_id scene i)⟩ ::
            assemble_plan_from imgs auds (i + 1) rest from by
        simp only [assemble_plan_from, hf]] at h
      rcases List.mem_cons.mp h with rfl | h'
      · exact le_refl i
      · have := ih (i + 1) e h'
        omega

/-- Membership in the assembly loop started at index `i`, characterised:
an entry is produced exactly for each storyboard position whose effective
scene id finds a first matching image, and it carries that image together
with the first matching audio (or `none`). -/
theorem mem_assemble_plan_from_iff (imgs : List ImageResult)
    (auds : List AudioResult) : ∀ (sb : List SBScene) (i : Nat)
    (e : AssembledScene),
    e ∈ assemble_plan_from imgs auds i sb ↔
      (i ≤ e.index ∧ sb.get? (e.index - i) = some e.scene ∧
       find_scene_image imgs (scene_effective_id e.scene e.index) = some e.image ∧
       e.audio = find_scene_audio auds (scene_effective_id e.scene e.index)) := by
  intro sb
  induction sb with
  | nil => intro i e; simp [assemble_plan_from]
  | cons scene rest ih =>
    intro i e
    cases hf : find_scene_image imgs (scene_effective_id scene i) with
    | none =>
      rw [show assemble_plan_from imgs auds i (scene :: rest) =
          assemble_plan_from imgs auds (i + 1) rest from by
        simp only [assemble_plan_from, hf]]
      rw [ih (i + 1) e]
      constructor
      · rintro ⟨hle, hget, himg, haud⟩
        refine ⟨by omega, ?_, himg, haud⟩
        have hidx : e.index - i = (e.index - (i + 1)) + 1 := by omega
        rw [hidx, List.get?_cons_succ]
        exact hget
      · rintro ⟨hle, hget, himg, haud⟩
        by_cases hei : e.index = i
        · exfalso
          have hsc : scene = e.scene := by
            rw [hei] at hget
            simpa using hget
          rw [← hsc, hei] at himg
          rw [hf] at himg
          exact Option.noConfusion himg
        · refine ⟨by omega, ?_, himg, haud⟩
          have hidx : e.index - i = (e.index - (i + 1)) + 1 := by omega
          rw [hidx, List.get?_cons_succ] at hget
          exact hget
    | some img =>
      rw [show assemble_plan_from imgs auds i (scene :: rest) =
          ⟨i, scene, img, find_scene_audio auds (scene_effective_id scene i)⟩ ::
            assemble_plan_from imgs auds (i + 1) rest from by
        simp only [assemble_plan_from, hf]]
      rw [List.mem_cons, ih (i + 1) e]
      constructor
      · rintro (rfl | ⟨hle, hget, himg, haud⟩)
        · refine ⟨le_refl i, by simp, by simpa using hf, rfl⟩
        · refine ⟨by omega, ?_, himg, haud⟩
          have hidx : e.index - i = (e.index - (i + 1)) + 1 := by omega
          rw [hidx, List.get?_cons_succ]
          exact hget
      · rintro ⟨hle, hget, himg, haud⟩
        by_cases hei : e.index = i
        · left
          have hsc : scene = e.scene := by
            rw [hei] at hget
            simpa using hget
          have himg2 : some img = some e.image := by
            rw [← hf]
            rw [← hsc, hei] at himg
            exact himg
          have h4 : e.audio = find_scene_audio auds (scene_effective_id scene i) := by
            rw [haud, ← hsc, hei]
          obtain ⟨a, b, c, d⟩ := e
          have h1' : a = i := hei
          have h2' : b = scene := hsc.symm
          have h3' : c = img := (Option.some.inj himg2).symm
          have h4' : d = find_scene_audio auds (scene_effective_id scene i) := h4
          subst h1' h2' h3' h4'
          rfl
        · right
          refine ⟨by omega, ?_, himg, haud⟩
          have hidx : e.index - i = (e.index - (i + 1)) + 1 := by omega
          rw [hidx, List.get?_cons_succ] at hget
          exact hget

/-- Elements of a list that is pairwise-distinct under `f` are equal
whenever their `f`-images are. -/
theorem eq_of_mem_pairwise_ne {α β : Type} (f : α → β) :
    ∀ {l : List α}, l.Pairwise (fun a b => f a ≠ f b) →
    ∀ x ∈ l, ∀ y ∈ l, f x = f y → x = y := by
  intro l
  induction l with
  | nil => intro _ x hx; simp at hx
  | cons a as ih =>
    intro hp x hx y hy hxy
    rw [List.pairwise_cons] at hp
    rcases List.mem_cons.mp hx with rfl | hx'
    · rcases List.mem_cons.mp hy with rfl | hy'
      · rfl
      · exact absurd hxy (hp.1 y hy')
    · rcases List.mem_cons.mp hy with rfl | hy'
      · exact absurd hxy.symm (hp.1 x hx')
      · exact ih hp.2 x hx' y hy' hxy

/-- `find?` is invariant under permutation when at most one element can
match. -/
theorem find?_perm_of_unique {α : Type} (pr : α → Bool) {l l' : List α}
    (hp : l.Perm l')
    (hu : ∀ x ∈ l, ∀ y ∈ l, pr x = true → pr y = true → x = y) :
    l.find? pr = l'.find? pr := by
  cases h1 : l.find? pr with
  | none =>
    cases h2 : l'.find? pr with
    | none => rfl
    | some b =>
      have hb := List.find?_some h2
      have hbl : b ∈ l := hp.symm.subset (List.mem_of_find?_eq_some h2)
      have := List.find?_eq_none.mp h1 b hbl
      simp [hb] at this
  | some a =>
    cases h2 : l'.find? pr with
    | none =>
      have ha := List.find?_some h1
      have hal' : a ∈ l' := hp.subset (List.mem_of_find?_eq_some h1)
      have := List.find?_eq_none.mp h2 a hal'
      simp [ha] at this
    | some b =>
      have ha := List.find?_some h1
      have hb := List.find?_some h2
      have hal : a ∈ l := List.mem_of_find?_eq_some h1
      have hbl : b ∈ l := hp.symm.subset (List.mem_of_find?_eq_some h2)
      rw [hu a hal b hbl ha hb]

/-- With pairwise-distinct scene ids, the join does not depend on the
order of the image and audio result lists. -/
theorem assemble_plan_from_perm_invariant {imgs imgs2 : List ImageResult}
    {auds auds2 : List AudioResult}
    (hpi : imgs.Perm imgs2) (hpa : auds.Perm auds2)
    (hui : images_have_distinct_ids imgs)
    (hua : audios_have_distinct_ids auds) :
    ∀ (sb : List SBScene) (i : Nat),
    assemble_plan_from imgs auds i sb = assemble_plan_from imgs2 auds2 i sb := by
  have hui' : imgs.Pairwise (fun a b => a.scene_id ≠ b.scene_id) := hui
  have hua' : auds.Pairwise (fun a b => a.scene_id ≠ b.scene_id) := hua
  have himg : ∀ sid, find_scene_image imgs sid = find_scene_image imgs2 sid := by
    intro sid
    apply find?_perm_of_unique _ hpi
    intro x hx y hy hxp hyp
    have hx' : x.scene_id = some sid := by simpa using hxp
    have hy' : y.scene_id = some sid := by simpa using hyp
    exact eq_of_mem_pairwise_ne (fun a => a.scene_id) hui' x hx y hy
      (by show x.scene_id = y.scene_id; rw [hx', hy'])
  have haud : ∀ sid, find_scene_audio auds sid = find_scene_audio auds2 sid := by
    intro sid
    apply find?_perm_of_unique _ hpa
    intro x hx y hy hxp hyp
    have hx' : x.scene_id = some sid := by simpa using hxp
    have hy' : y.scene_id = some sid := by simpa using hyp
    exact eq_of_mem_pairwise_ne (fun a => a.scene_id) hua' x hx y hy
      (by show x.scene_id = y.scene_id; rw [hx', hy'])
  intro sb
  induction sb with
  | nil => intro i; rfl
  | cons scene rest ih =>
    intro i
    cases hf : find_scene_image imgs (scene_effective_id scene i) with
    | none =>
      have hf2 : find_scene_image imgs2 (scene_effective_id scene i) = none := by
        rw [← himg]; exact hf
      simp only [assemble_plan_from, hf, hf2]
      exact ih (i + 1)
    | some img =>
      have hf2 : find_scene_image imgs2 (scene_effective_id scene i) = some img := by
        rw [← himg]; exact hf
      simp only [assemble_plan_from, hf, hf2]
      rw [haud (scene_effective_id scene i), ih (i + 1)]

/-- C5: the Assembling stage joins by `scene_id`, not by list position.
The first conjunct characterises the assembled entries: scene at position
`e.index`, image = the first image result whose `scene_id` equals the
scene's effective id, audio = the first matching audio result or `none`.
The remaining conjuncts spell the claim out: attached images and audios
carry the scene's id; a scene with no matching audio is still assembled,
with no audio track (`e.audio = none` exactly when no audio result
matches); a scene with no matching image produces no entry (skipped, and
the join is total — no error); and, when scene ids are pairwise distinct,
reordering the image or audio result lists does not change the join. -/
theorem c5_scene_join (sb : List SBScene) (imgs : List ImageResult)
    (auds : List AudioResult) :
    (∀ e : AssembledScene, e ∈ assemble_plan sb imgs auds ↔
      (sb.get? e.index = some e.scene ∧
       find_scene_image imgs (scene_effective_id e.scene e.index) = some e.image ∧
       e.audio = find_scene_audio auds (scene_effective_id e.scene e.index))) ∧
    (∀ e ∈ assemble_plan sb imgs auds,
      e.image.scene_id = some (scene_effective_id e.scene e.index)) ∧
    (∀ e ∈ assemble_plan sb imgs auds, ∀ a, e.audio = some a →
      a.scene_id = some (scene_effective_id e.scene e.index)) ∧
    (∀ e ∈ assemble_plan sb imgs auds, e.audio = none →
      ∀ a ∈ auds, a.scene_id ≠ some (scene_effective_id e.scene e.index)) ∧
    (∀ i scene, sb.get? i = some scene →
      find_scene_image imgs (scene_effective_id scene i) = none →
      ∀ e ∈ assemble_plan sb imgs auds, e.index ≠ i) ∧
    (∀ imgs2 auds2, imgs.Perm imgs2 → auds.Perm auds2 →
      images_have_distinct_ids imgs → audios_have_distinct_ids auds →
      assemble_plan sb imgs auds = assemble_plan sb imgs2 auds2) := by
  have hmem : ∀ e : AssembledScene, e ∈ assemble_plan sb imgs auds ↔
      (sb.get? e.index = some e.scene ∧
       find_scene_image imgs (scene_effective_id e.scene e.index) = some e.image ∧
       e.audio = find_scene_audio auds (scene_effective_id e.scene e.index)) := by
    intro e
    have h := mem_assemble_plan_from_iff imgs auds sb 0 e
    simpa [assemble_plan] using h
  refine ⟨hmem, ?_, ?_, ?_, ?_, ?_⟩
  · intro e he
    obtain ⟨_, himg, _⟩ := (hmem e).mp he
    have := List.find?_some himg
    simpa using this
  · intro e he a ha
    obtain ⟨_, _, haud⟩ := (hmem e).mp he
    rw [ha] at haud
    have := List.find?_some haud.symm
    simpa using this
  · intro e he hnone a hamem
    obtain ⟨_, _, haud⟩ := (hmem e).mp he
    rw [hnone] at haud
    have := List.find?_eq_none.mp haud.symm a hamem
    simpa using this
  · intro i scene hget hnone e he hei
    obtain ⟨hg, himg, _⟩ := (hmem e).mp he
    rw [hei, hget] at hg
    have hsc : scene = e.scene := Option.some.inj hg
    rw [← hsc, hei] at himg
    rw [hnone] at himg
    exact Option.noConfusion himg
  · intro imgs2 auds2 hpi hpa hui hua
    exact assemble_plan_from_perm_invariant hpi hpa hui hua sb 0

/-- Witness for C5, on the example of the spec: storyboard
`[scene 1, scene 2]`, image results in reversed order, audio only for
scene 1 — scene 2 is assembled with image 2 (joined by id, not position)
and no audio track. -/
theorem c5_scene_join_witness :
    (⟨1, ⟨some 2, some 5, some "none"⟩, ⟨some 2, "img2.jpg"⟩, none⟩ :
        AssembledScene) ∈
      assemble_plan
        [⟨some 1, some 5, some "none"⟩, ⟨some 2, some 5, some "none"⟩]
        [⟨some 2, "img2.jpg"⟩, ⟨some 1, "img1.jpg"⟩]
        [⟨some 1, "aud1.mp3"⟩] :=
  ((c5_scene_join
      [⟨some 1, some 5, some "none"⟩, ⟨some 2, some 5, some "none"⟩]
      [⟨some 2, "img2.jpg"⟩, ⟨some 1, "img1.jpg"⟩]
      [⟨some 1, "aud1.mp3"⟩]).1 _).mpr (by decide)

/-! ### Progress channel ordering -/

/-- C8: publishing `[p1, p2, complete]` (as progress dicts) to a channel
makes the consumer yield exactly the greeting followed by those events in
publication order; it terminates right after the `complete` event —
whatever else is queued behind it is neither awaited nor yielded (the
`true` component: the generator broke out of its loop instead of blocking
on `queue.get`) — and the cleanup performed on generator exit (normal or
cancelled) removes the channel queue from the registry. -/
theorem c8_progress_channel_ordering (d1 d2 dc : String)
    (rest : List QueueMsg) (reg : ChannelRegistry) (ch : String) :
    progress_generator (some ([QueueMsg.dict (some "progress") d1,
        QueueMsg.dict (some "progress") d2,
        QueueMsg.dict (some "complete") dc] ++ rest)) =
      ([sse_greeting,
        "event: progress\n", "data: " ++ d1 ++ "\n\n",
        "event: progress\n", "data: " ++ d2 ++ "\n\n",
        "event: complete\n", "data: " ++ dc ++ "\n\n"], true) ∧
    pop_channel reg ch ch = none := by
  constructor
  · rfl
  · show (if ch == ch then none else reg ch) = none
    simp

end VideoPipeline
